import Mathlib

/-!
Verification of the AirPredict gesture-to-action pipeline.

This file shallowly embeds the core of the AirPredict repository
(hand_tracker.py, air_predict_app.py, app.py) in Lean 4 and proves, or
refutes, the specified properties of the gesture classifier, the
coordinate mapper and smoother, the interaction state machine
(draw/recognize/pinch with debounce), and the glyph normalization
pipeline.

Modelling conventions:
* Python floats are modelled by exact rationals (ℚ).  All quantities the
  claims depend on stay far from representation boundaries, so this does
  not affect any verdict.
* Python `int(x)` (truncation toward zero) is modelled by `pyInt`.
* External libraries (numpy, OpenCV, the landmark detector, the Keras
  models) are modelled at their documented interface: `np_interp`,
  `np_clip`, `np.argmax` as first-maximum, `cv2.findContours` as the
  8-connected components of the nonzero pixels in raster discovery
  order, `cv2.resize` with INTER_AREA as exact area averaging.
-/

/-- Python `int()` truncation toward zero on a rational. -/
def pyInt (q : ℚ) : ℤ := if 0 ≤ q then ⌊q⌋ else ⌈q⌉

theorem pyInt_eq_floor {q : ℚ} (h : 0 ≤ q) : pyInt q = ⌊q⌋ := by
  simp [pyInt, h]

theorem pyInt_intCast (z : ℤ) : pyInt (z : ℚ) = z := by
  by_cases h : 0 ≤ (z : ℚ)
  · simp [pyInt, h, Int.floor_intCast]
  · simp [pyInt, h, Int.ceil_intCast]

theorem pyInt_nonneg {q : ℚ} (h : 0 ≤ q) : 0 ≤ pyInt q := by
  rw [pyInt_eq_floor h]
  exact Int.floor_nonneg.mpr h

theorem pyInt_le_of_le_int {q : ℚ} {z : ℤ} (h0 : 0 ≤ q) (h : q ≤ (z : ℚ)) :
    pyInt q ≤ z := by
  rw [pyInt_eq_floor h0]
  calc ⌊q⌋ ≤ ⌊(z : ℚ)⌋ := Int.floor_le_floor h
    _ = z := Int.floor_intCast z

theorem pyInt_mono {q r : ℚ} (h0 : 0 ≤ q) (h : q ≤ r) : pyInt q ≤ pyInt r := by
  rw [pyInt_eq_floor h0, pyInt_eq_floor (h0.trans h)]
  exact Int.floor_le_floor h

/-! ## Gesture classifier (hand_tracker.py, HandTracker.process_frame) -/

/-- Discrete gesture symbols produced by the hand tracker. -/
inductive Gesture
  | DRAW
  | MOVE
  | PINCH
  | NONE
deriving DecidableEq, Repr

/-- One detected hand: normalized landmark coordinates, indexed as in
MediaPipe (4 = thumb tip, 8 = index tip, 6/10/14/18 = PIP joints,
12/16/20 = middle/ring/pinky tips). -/
structure Landmarks where
  pts : ℕ → ℚ × ℚ

/-- fingers_up from hand_tracker.py: booleans for index, middle, ring,
pinky; a finger is up when its tip y is smaller than its PIP joint y. -/
def fingers_up (L : Landmarks) : List Bool :=
  [decide ((L.pts 8).2 < (L.pts 6).2),
   decide ((L.pts 12).2 < (L.pts 10).2),
   decide ((L.pts 16).2 < (L.pts 14).2),
   decide ((L.pts 20).2 < (L.pts 18).2)]

/-- Pinch threshold in pixels (hand_tracker.py, self.pinch_threshold). -/
def pinch_threshold : ℚ := 30

/-- Squared thumb-tip-to-index-tip pixel distance.  The source computes
`math.hypot(dx, dy) * w < 30`; since both sides are nonnegative and
`w ≥ 0`, this is equivalent to `(dx^2 + dy^2) * w^2 < 30^2`, which is
the form used here so the condition stays rational. -/
def pinch_dist_sq (L : Landmarks) (w : ℕ) : ℚ :=
  (((L.pts 8).1 - (L.pts 4).1) ^ 2 + ((L.pts 8).2 - (L.pts 4).2) ^ 2) * (w : ℚ) ^ 2

/-- Per-frame output of HandTracker.process_frame: gesture symbol, raw
cursor pixel coordinates (index tip), and pinch point, if any. -/
structure FrameOut where
  gesture : Gesture
  cursor : Option (ℤ × ℤ)
  pinch : Option (ℤ × ℤ)
deriving Repr

/-- HandTracker.process_frame gesture logic (hand_tracker.py lines
42-93) for zero or one detected hand in a `w × h` frame. -/
def process_frame (hand : Option Landmarks) (w h : ℕ) : FrameOut :=
  match hand with
  | none => ⟨Gesture.NONE, none, none⟩
  | some L =>
    let it := L.pts 8
    let tt := L.pts 4
    let cursor := some (pyInt (it.1 * w), pyInt (it.2 * h))
    if pinch_dist_sq L w < pinch_threshold ^ 2 then
      ⟨Gesture.PINCH, cursor,
        some (pyInt ((it.1 + tt.1) / 2 * w), pyInt ((it.2 + tt.2) / 2 * h))⟩
    else if fingers_up L = [true, true, true, true] then
      ⟨Gesture.MOVE, cursor, none⟩
    else if fingers_up L = [true, false, false, false] then
      ⟨Gesture.DRAW, cursor, none⟩
    else
      ⟨Gesture.NONE, cursor, none⟩

/-- C1: the gesture classifier decides with fixed precedence, first
match wins: pinch distance below the threshold gives PINCH regardless of
the finger-up states, and the thumb/index midpoint is emitted as the
pinch point; otherwise all four fingers up gives MOVE; otherwise exactly
the index finger up gives DRAW; otherwise NONE. -/
theorem C1_gesture_precedence (L : Landmarks) (w h : ℕ) :
    (pinch_dist_sq L w < pinch_threshold ^ 2 →
      (process_frame (some L) w h).gesture = Gesture.PINCH ∧
      (process_frame (some L) w h).pinch =
        some (pyInt (((L.pts 8).1 + (L.pts 4).1) / 2 * w),
              pyInt (((L.pts 8).2 + (L.pts 4).2) / 2 * h))) ∧
    (¬ pinch_dist_sq L w < pinch_threshold ^ 2 →
      fingers_up L = [true, true, true, true] →
      (process_frame (some L) w h).gesture = Gesture.MOVE) ∧
    (¬ pinch_dist_sq L w < pinch_threshold ^ 2 →
      fingers_up L = [true, false, false, false] →
      (process_frame (some L) w h).gesture = Gesture.DRAW) ∧
    (¬ pinch_dist_sq L w < pinch_threshold ^ 2 →
      fingers_up L ≠ [true, true, true, true] →
      fingers_up L ≠ [true, false, false, false] →
      (process_frame (some L) w h).gesture = Gesture.NONE) := by
  refine ⟨fun hp => ?_, fun hp hf => ?_, fun hp hf => ?_, fun hp hf1 hf2 => ?_⟩
  · simp [process_frame, hp]
  · simp [process_frame, hp, hf]
  · simp [process_frame, hp, hf]
  · simp [process_frame, hp, hf1, hf2]

/-- C1 witness: a hand with thumb tip and index tip at the same point is
classified PINCH with the midpoint emitted. -/
theorem C1_witness :
    (process_frame (some ⟨fun _ => ((0 : ℚ), (0 : ℚ))⟩) 640 480).gesture = Gesture.PINCH ∧
    (process_frame (some ⟨fun _ => ((0 : ℚ), (0 : ℚ))⟩) 640 480).pinch =
      some (pyInt (((0 : ℚ) + (0 : ℚ)) / 2 * ((640 : ℕ) : ℚ)),
            pyInt (((0 : ℚ) + (0 : ℚ)) / 2 * ((480 : ℕ) : ℚ))) :=
  (C1_gesture_precedence ⟨fun _ => ((0 : ℚ), (0 : ℚ))⟩ 640 480).1
    (by norm_num [pinch_dist_sq, pinch_threshold])

/-! ## Cursor smoothing (air_predict_app.py, _handle_gestures lines 242-243) -/

/-- Smoothing factor (air_predict_app.py, SMOOTHING_ALPHA = 0.3). -/
def SMOOTHING_ALPHA : ℚ := 3 / 10

/-- One smoothing update per axis:
`smooth = int(SMOOTHING_ALPHA * win + (1 - SMOOTHING_ALPHA) * smooth)`. -/
def smooth_step (m s : ℤ) : ℤ :=
  pyInt (SMOOTHING_ALPHA * (m : ℚ) + (1 - SMOOTHING_ALPHA) * (s : ℚ))

theorem smooth_step_eq_floor (m s : ℤ) (hm : 0 ≤ m) (hs : 0 ≤ s) :
    smooth_step m s = ⌊(3 * (m : ℚ) + 7 * (s : ℚ)) / 10⌋ := by
  have hq : SMOOTHING_ALPHA * (m : ℚ) + (1 - SMOOTHING_ALPHA) * (s : ℚ)
      = (3 * (m : ℚ) + 7 * (s : ℚ)) / 10 := by
    rw [SMOOTHING_ALPHA]; ring
  rw [smooth_step, hq, pyInt_eq_floor]
  have hm' : (0 : ℚ) ≤ (m : ℚ) := by exact_mod_cast hm
  have hs' : (0 : ℚ) ≤ (s : ℚ) := by exact_mod_cast hs
  positivity

theorem smooth_step_fixed {m s : ℤ} (h0 : 0 ≤ s) (h1 : s ≤ m) (h2 : m ≤ s + 3) :
    smooth_step m s = s := by
  rw [smooth_step_eq_floor m s (h0.trans h1) h0]
  rw [Int.floor_eq_iff]
  constructor
  · rw [le_div_iff (by norm_num)]
    have : (s : ℚ) ≤ (m : ℚ) := by exact_mod_cast h1
    linarith
  · rw [div_lt_iff (by norm_num)]
    have : (m : ℚ) ≤ (s : ℚ) + 3 := by exact_mod_cast h2
    push_cast
    linarith

theorem smooth_step_progress {m s : ℤ} (h0 : 0 ≤ s) (h : s + 4 ≤ m) :
    s + 1 ≤ smooth_step m s := by
  have hm : 0 ≤ m := le_trans (by linarith) h
  rw [smooth_step_eq_floor m s hm h0]
  rw [Int.le_floor]
  rw [le_div_iff (by norm_num)]
  have : (s : ℚ) + 4 ≤ (m : ℚ) := by exact_mod_cast h
  push_cast
  linarith

theorem smooth_step_le {m s : ℤ} (h0 : 0 ≤ s) (h : s ≤ m) :
    smooth_step m s ≤ m := by
  rw [smooth_step_eq_floor m s (h0.trans h) h0]
  have : (3 * (m : ℚ) + 7 * (s : ℚ)) / 10 ≤ (m : ℚ) := by
    rw [div_le_iff (by norm_num)]
    have : (s : ℚ) ≤ (m : ℚ) := by exact_mod_cast h
    linarith
  calc ⌊(3 * (m : ℚ) + 7 * (s : ℚ)) / 10⌋ ≤ ⌊(m : ℚ)⌋ := Int.floor_le_floor this
    _ = m := Int.floor_intCast m

theorem smooth_step_ge {m s : ℤ} (h0 : 0 ≤ s) (h : s ≤ m) :
    s ≤ smooth_step m s := by
  rw [smooth_step_eq_floor m s (h0.trans h) h0]
  rw [Int.le_floor]
  rw [le_div_iff (by norm_num)]
  have : (s : ℚ) ≤ (m : ℚ) := by exact_mod_cast h
  linarith

/-- The smoothed coordinate over ticks with a constant mapped input `m`,
seeded at zero at session start (self.smooth_x = 0). -/
def smooth_traj (m : ℤ) : ℕ → ℤ
  | 0 => 0
  | n + 1 => smooth_step m (smooth_traj m n)

theorem smooth_traj_bounds {m : ℤ} (hm : 0 ≤ m) :
    ∀ n, 0 ≤ smooth_traj m n ∧ smooth_traj m n ≤ m := by
  intro n
  induction n with
  | zero => exact ⟨le_refl 0, hm⟩
  | succ k ih =>
    have h1 := smooth_step_ge ih.1 ih.2
    have h2 := smooth_step_le ih.1 ih.2
    exact ⟨ih.1.trans h1, h2⟩

theorem smooth_traj_dichotomy {m : ℤ} (hm : 0 ≤ m) :
    ∀ k : ℕ, m ≤ smooth_traj m k + 3 ∨ (k : ℤ) ≤ smooth_traj m k := by
  intro k
  induction k with
  | zero => exact Or.inr (le_refl 0)
  | succ k ih =>
    by_cases hnear : m ≤ smooth_traj m k + 3
    · left
      have hb := smooth_traj_bounds hm k
      rw [smooth_traj, smooth_step_fixed hb.1 hb.2 hnear]
      exact hnear
    · rcases ih with h | h
      · exact absurd h hnear
      · right
        have hb := smooth_traj_bounds hm k
        have hfar : smooth_traj m k + 4 ≤ m := by omega
        have := smooth_step_progress hb.1 hfar
        rw [smooth_traj]
        push_cast
        omega

theorem smooth_traj_settles {m : ℤ} (hm : 0 ≤ m) :
    m ≤ smooth_traj m m.toNat + 3 := by
  rcases smooth_traj_dichotomy hm m.toNat with h | h
  · exact h
  · have hb := smooth_traj_bounds hm m.toNat
    omega

/-- C6 counterexample: with mapped input 3 and the smoothing state
seeded at zero, the truncated smoothing update never moves: the smoothed
coordinate is 0 on every tick and never reaches the input 3, refuting
convergence to the input. -/
theorem C6_counterexample_no_convergence :
    (∀ n : ℕ, smooth_traj 3 n = 0) ∧ (0 : ℤ) ≠ 3 := by
  constructor
  · intro n
    induction n with
    | zero => rfl
    | succ k ih =>
      rw [smooth_traj, ih]
      exact smooth_step_fixed (le_refl 0) (by norm_num) (by norm_num)
  · decide

/-- C6 amended: the per-axis smoothing is
`smoothed = int(α·mapped + (1−α)·smoothed_prev)` with α = 0.3 seeded at
zero; under a constant mapped input `m ≥ 0` it reaches, within `m`
ticks, a fixed point lying within 3 pixels at or below `m` (not `m`
itself in general), and stays there forever. -/
theorem C6_smoothing_settles_within_3 (m : ℤ) (hm : 0 ≤ m) :
    ∀ n : ℕ, m.toNat ≤ n →
      smooth_traj m n = smooth_traj m m.toNat ∧
      m - 3 ≤ smooth_traj m n ∧ smooth_traj m n ≤ m := by
  have hsettle := smooth_traj_settles hm
  have hstay : ∀ n : ℕ, m.toNat ≤ n → smooth_traj m n = smooth_traj m m.toNat := by
    intro n hn
    induction n, hn using Nat.le_induction with
    | base => rfl
    | succ n hn ih =>
      have hb := smooth_traj_bounds hm n
      have : m ≤ smooth_traj m n + 3 := by rw [ih]; exact hsettle
      rw [smooth_traj, smooth_step_fixed hb.1 hb.2 this, ih]
  intro n hn
  refine ⟨hstay n hn, ?_, (smooth_traj_bounds hm n).2⟩
  rw [hstay n hn]
  omega

/-- C6 witness: with mapped input 10 the smoothed coordinate settles by
tick 10 and from tick 12 on stays at a fixed point in [7, 10]. -/
theorem C6_witness :
    smooth_traj 10 12 = smooth_traj 10 (Int.toNat 10) ∧
    (10 : ℤ) - 3 ≤ smooth_traj 10 12 ∧ smooth_traj 10 12 ≤ 10 :=
  C6_smoothing_settles_within_3 10 (by norm_num) 12 (by norm_num)

/-! ## Coordinate mapping (air_predict_app.py, _map_coords lines 211-230) -/

/-- numpy.interp with a single interval `[x0, x1] → [y0, y1]`: constant
extrapolation outside, linear interpolation inside. -/
def np_interp (x x0 x1 y0 y1 : ℚ) : ℚ :=
  if x ≤ x0 then y0
  else if x1 ≤ x then y1
  else y0 + (x - x0) * ((y1 - y0) / (x1 - x0))

/-- numpy.clip to `[lo, hi]` (with `lo ≤ hi`). -/
def np_clip (v lo hi : ℚ) : ℚ := min hi (max lo v)

/-- Edge margin in camera pixels (air_predict_app.py, FRAME_PADDING). -/
def FRAME_PADDING : ℚ := 100

/-- One axis of _map_coords: rescale the camera coordinate from the
margin-trimmed interior `[FRAME_PADDING, camDim - FRAME_PADDING]` onto
`[0, winDim]`, clip to `[0, winDim]`, then truncate to an int. -/
def map_axis (camDim : ℚ) (winDim : ℤ) (x : ℚ) : ℤ :=
  pyInt (np_clip (np_interp x FRAME_PADDING (camDim - FRAME_PADDING) 0 (winDim : ℚ))
    0 (winDim : ℚ))

/-- Both axes of _map_coords for a raw cursor coordinate. -/
def map_coords (camW camH : ℚ) (winW winH : ℤ) (c : ℤ × ℤ) : ℤ × ℤ :=
  (map_axis camW winW (c.1 : ℚ), map_axis camH winH (c.2 : ℚ))

theorem np_interp_mem {x x0 x1 y0 y1 : ℚ} (hx : x0 < x1) (hy : y0 ≤ y1) :
    y0 ≤ np_interp x x0 x1 y0 y1 ∧ np_interp x x0 x1 y0 y1 ≤ y1 := by
  unfold np_interp
  split_ifs with h1 h2
  · exact ⟨le_rfl, hy⟩
  · exact ⟨hy, le_rfl⟩
  · have hd : (0 : ℚ) < x1 - x0 := by linarith
    have hk : (0 : ℚ) ≤ (y1 - y0) / (x1 - x0) := div_nonneg (by linarith) hd.le
    have hxa : (0 : ℚ) ≤ x - x0 := by linarith [not_le.mp h1]
    constructor
    · nlinarith [mul_nonneg hxa hk]
    · have hxb : x - x0 ≤ x1 - x0 := by linarith [not_le.mp h2]
      have h1' : (x - x0) * ((y1 - y0) / (x1 - x0)) ≤ (x1 - x0) * ((y1 - y0) / (x1 - x0)) :=
        mul_le_mul_of_nonneg_right hxb hk
      have h2' : (x1 - x0) * ((y1 - y0) / (x1 - x0)) = y1 - y0 := by
        field_simp
      linarith

theorem np_interp_mono {x0 x1 y0 y1 a b : ℚ} (hx : x0 < x1) (hy : y0 ≤ y1)
    (hab : a ≤ b) : np_interp a x0 x1 y0 y1 ≤ np_interp b x0 x1 y0 y1 := by
  by_cases ha1 : a ≤ x0
  · rw [show np_interp a x0 x1 y0 y1 = y0 from by simp [np_interp, ha1]]
    exact (np_interp_mem hx hy).1
  · by_cases ha2 : x1 ≤ a
    · have hb2 : x1 ≤ b := ha2.trans hab
      have hb1 : ¬ b ≤ x0 := by intro h; exact ha1 (hab.trans h)
      simp [np_interp, ha1, ha2, hb1, hb2]
    · by_cases hb2 : x1 ≤ b
      · rw [show np_interp b x0 x1 y0 y1 = y1 from by
          simp [np_interp, hb2, show ¬ b ≤ x0 from by intro h; linarith]]
        exact (np_interp_mem hx hy).2
      · have hb1 : ¬ b ≤ x0 := by intro h; exact ha1 (hab.trans h)
        rw [show np_interp a x0 x1 y0 y1
            = y0 + (a - x0) * ((y1 - y0) / (x1 - x0)) from by simp [np_interp, ha1, ha2]]
        rw [show np_interp b x0 x1 y0 y1
            = y0 + (b - x0) * ((y1 - y0) / (x1 - x0)) from by simp [np_interp, hb1, hb2]]
        have hk : (0 : ℚ) ≤ (y1 - y0) / (x1 - x0) := div_nonneg (by linarith) (by linarith)
        have := mul_le_mul_of_nonneg_right (show a - x0 ≤ b - x0 by linarith) hk
        linarith

theorem np_clip_mem {v lo hi : ℚ} (h : lo ≤ hi) :
    lo ≤ np_clip v lo hi ∧ np_clip v lo hi ≤ hi :=
  ⟨le_min h (le_max_left lo v), min_le_left hi (max lo v)⟩

theorem np_clip_mono {v w lo hi : ℚ} (h : v ≤ w) :
    np_clip v lo hi ≤ np_clip w lo hi :=
  min_le_min le_rfl (max_le_max le_rfl h)

theorem map_axis_bounds (camDim : ℚ) (winDim : ℤ) (x : ℚ) (hwin : 0 ≤ winDim) :
    0 ≤ map_axis camDim winDim x ∧ map_axis camDim winDim x ≤ winDim := by
  have hwin' : (0 : ℚ) ≤ (winDim : ℚ) := by exact_mod_cast hwin
  have hc := @np_clip_mem
    (np_interp x FRAME_PADDING (camDim - FRAME_PADDING) 0 (winDim : ℚ))
    0 (winDim : ℚ) hwin'
  exact ⟨pyInt_nonneg hc.1, pyInt_le_of_le_int hc.1 hc.2⟩

/-- C9: per axis, the coordinate mapping (linear rescale of the
margin-trimmed camera interior onto `[0, winDim]`, then clip, then int)
is monotonic in the camera coordinate, and clamping its output to
`[0, winDim]` again is a no-op (idempotence of the clamp on mapped
points).  Hypotheses: the camera dimension exceeds twice the margin of
100 px, and the window dimension is nonnegative. -/
theorem C9_map_axis_monotone_clamp_noop (camDim : ℚ) (winDim : ℤ)
    (hcam : 200 < camDim) (hwin : 0 ≤ winDim) :
    (∀ a b : ℚ, a ≤ b → map_axis camDim winDim a ≤ map_axis camDim winDim b) ∧
    (∀ x : ℚ, max 0 (min winDim (map_axis camDim winDim x)) = map_axis camDim winDim x) := by
  constructor
  · intro a b hab
    have hx : FRAME_PADDING < camDim - FRAME_PADDING := by
      rw [FRAME_PADDING]; linarith
    have hwin' : (0 : ℚ) ≤ (winDim : ℚ) := by exact_mod_cast hwin
    have hmono := @np_interp_mono FRAME_PADDING (camDim - FRAME_PADDING)
      0 (winDim : ℚ) a b hx hwin' hab
    have hclip := @np_clip_mono _ _ 0 (winDim : ℚ) hmono
    have hnn : (0 : ℚ) ≤ np_clip
        (np_interp a FRAME_PADDING (camDim - FRAME_PADDING) 0 (winDim : ℚ))
        0 (winDim : ℚ) := (np_clip_mem hwin').1
    exact pyInt_mono hnn hclip
  · intro x
    have hb := map_axis_bounds camDim winDim x hwin
    rw [min_eq_right hb.2, max_eq_right hb.1]

/-- C9 witness: at camera width 640 and window width 1200, the mapping
is order-preserving on 100 ≤ 400 and re-clamping the mapped value of
9000 changes nothing. -/
theorem C9_witness :
    (map_axis 640 1200 100 ≤ map_axis 640 1200 400) ∧
    (max 0 (min 1200 (map_axis 640 1200 9000)) = map_axis 640 1200 9000) :=
  ⟨(C9_map_axis_monotone_clamp_noop 640 1200 (by norm_num) (by norm_num)).1 100 400
      (by norm_num),
   (C9_map_axis_monotone_clamp_noop 640 1200 (by norm_num) (by norm_num)).2 9000⟩

/-! ## Interaction controller (air_predict_app.py, _handle_gestures,
_update_button_hovers, _handle_pinch_click, reset_pinch)

One tick = one webcam frame processed by update/_handle_gestures.  The
delayed callback `window.after(PINCH_COOLDOWN_MS, self.reset_pinch)` is
modelled by `resetAt`: a scheduled reset fires before any tick whose
timestamp is at or past its due time.  Calls to _recognize_character and
hovered_button.invoke are recorded as the timestamps in `recogs` and
`clicks`; the recognition body itself is modelled separately below. -/

/-- Pinch cooldown (air_predict_app.py, PINCH_COOLDOWN_MS). -/
def PINCH_COOLDOWN_MS : ℕ := 500

/-- Input of one tick: the tracker gesture, the raw cursor coordinate
(none iff no hand was detected), and the tick timestamp in ms. -/
structure TickIn where
  gesture : Gesture
  cursor : Option (ℤ × ℤ)
  t : ℕ

/-- A clickable button: window-relative rectangle plus enabled flag. -/
structure Btn where
  x1 : ℤ
  y1 : ℤ
  x2 : ℤ
  y2 : ℤ
  enabled : Bool

/-- Fixed UI geometry read by the controller each tick. -/
structure Env where
  buttons : List Btn
  canvasX : ℤ
  canvasY : ℤ
  canvasW : ℤ
  canvasH : ℤ
  camW : ℚ
  camH : ℚ
  winW : ℤ
  winH : ℤ

/-- Mutable session state of AirPredictApp touched by _handle_gestures,
plus observer lists `clicks` and `recogs` recording committed pinch
clicks and triggered recognitions (by tick timestamp, newest first). -/
structure AppState where
  smooth : ℤ × ℤ
  last : Option (ℤ × ℤ)
  pinchActive : Bool
  resetAt : Option ℕ
  hovered : Option ℕ
  strokes : List ((ℤ × ℤ) × (ℤ × ℤ))
  clicks : List ℕ
  recogs : List ℕ

/-- Session start state (smooth seeded at zero, no stroke, latch clear). -/
def initState : AppState := ⟨(0, 0), none, false, none, none, [], [], []⟩

/-- Hit test of _update_button_hovers: first enabled button strictly
containing the point, in the fixed button ordering. -/
def hitTestFrom (p : ℤ × ℤ) : ℕ → List Btn → Option ℕ
  | _, [] => none
  | i, b :: bs =>
    if b.enabled = true ∧ b.x1 < p.1 ∧ p.1 < b.x2 ∧ b.y1 < p.2 ∧ p.2 < b.y2 then some i
    else hitTestFrom p (i + 1) bs

def hitTest (bs : List Btn) (p : ℤ × ℤ) : Option ℕ := hitTestFrom p 0 bs

/-- The scheduled reset_pinch callback: it has fired (clearing the
latch) before any tick at or past its due time. -/
def fireReset (s : AppState) (t : ℕ) : AppState :=
  match s.resetAt with
  | some r => if r ≤ t then { s with pinchActive := false, resetAt := none } else s
  | none => s

/-- The smoothed cursor position for one tick: the mapped coordinate fed
through the per-axis exponential moving average against the previous
smoothed state. -/
def smoothPt (env : Env) (s : AppState) (c : ℤ × ℤ) : ℤ × ℤ :=
  (smooth_step (map_coords env.camW env.camH env.winW env.winH c).1 s.smooth.1,
   smooth_step (map_coords env.camW env.camH env.winW env.winH c).2 s.smooth.2)

/-- One tick of _handle_gestures (air_predict_app.py lines 232-271):
no cursor signal is a no-op; otherwise smooth the mapped coordinate,
recompute the hover, then branch on the gesture: DRAW extends the stroke
(only with a previous point strictly inside the canvas) and records the
last point; any other gesture triggers recognition when a draw run just
ended and the gesture is MOVE, commits a debounced click when it is
PINCH, and lifts the pen. -/
def tick (env : Env) (s : AppState) (inp : TickIn) : AppState :=
  let s0 := fireReset s inp.t
  match inp.cursor with
  | none => s0
  | some c =>
    let sm := smoothPt env s0 c
    let hov := hitTest env.buttons sm
    let cx := sm.1 - env.canvasX
    let cy := sm.2 - env.canvasY
    if inp.gesture = Gesture.DRAW then
      { smooth := sm, last := some (cx, cy), pinchActive := s0.pinchActive,
        resetAt := s0.resetAt, hovered := hov,
        strokes :=
          match s0.last with
          | some lp =>
            if 0 < cx ∧ cx < env.canvasW ∧ 0 < cy ∧ cy < env.canvasH then
              (lp, (cx, cy)) :: s0.strokes
            else s0.strokes
          | none => s0.strokes,
        clicks := s0.clicks, recogs := s0.recogs }
    else
      let recogsN :=
        if inp.gesture = Gesture.MOVE ∧ s0.last ≠ none then inp.t :: s0.recogs
        else s0.recogs
      if inp.gesture = Gesture.PINCH ∧ s0.pinchActive = false ∧ hov ≠ none then
        { smooth := sm, last := none, pinchActive := true,
          resetAt := some (inp.t + PINCH_COOLDOWN_MS), hovered := hov,
          strokes := s0.strokes, clicks := inp.t :: s0.clicks, recogs := recogsN }
      else
        { smooth := sm, last := none, pinchActive := s0.pinchActive,
          resetAt := s0.resetAt, hovered := hov,
          strokes := s0.strokes, clicks := s0.clicks, recogs := recogsN }

/-- Run a list of ticks in order. -/
def runTicks (env : Env) (s : AppState) (l : List TickIn) : AppState :=
  l.foldl (tick env) s

/-- Gesture of the latest tick that carried a cursor signal. -/
def lastSig : List TickIn → Option Gesture
  | [] => none
  | i :: l =>
    match lastSig l with
    | some g => some g
    | none => if i.cursor.isSome then some i.gesture else none

theorem fireReset_last (s : AppState) (t : ℕ) : (fireReset s t).last = s.last := by
  unfold fireReset
  cases s.resetAt <;> simp <;> split_ifs <;> rfl

theorem fireReset_recogs (s : AppState) (t : ℕ) : (fireReset s t).recogs = s.recogs := by
  unfold fireReset
  cases s.resetAt <;> simp <;> split_ifs <;> rfl

theorem tick_last (env : Env) (s : AppState) (i : TickIn) :
    ((tick env s i).last ≠ none) ↔
      (if i.cursor.isSome then i.gesture = Gesture.DRAW else s.last ≠ none) := by
  cases hc : i.cursor with
  | none => simp [tick, hc, fireReset_last]
  | some c =>
    simp only [hc, Option.isSome_some, if_true]
    by_cases hg : i.gesture = Gesture.DRAW
    · simp [tick, hc, hg]
    · simp only [tick, hc, hg, if_false]
      split_ifs <;> simp [hg]

theorem tick_recogs (env : Env) (s : AppState) (i : TickIn) :
    (tick env s i).recogs =
      if i.cursor.isSome ∧ i.gesture = Gesture.MOVE ∧ s.last ≠ none then
        i.t :: s.recogs
      else s.recogs := by
  cases hc : i.cursor with
  | none =>
    have : ¬ ((i.cursor.isSome : Prop) ∧ i.gesture = Gesture.MOVE ∧ s.last ≠ none) := by
      simp [hc]
    simp [tick, hc, fireReset_recogs, this]
  | some c =>
    simp only [hc, Option.isSome_some, true_and]
    by_cases hgd : i.gesture = Gesture.DRAW
    · have hgm : ¬ (i.gesture = Gesture.MOVE ∧ s.last ≠ none) := by
        rw [hgd]; rintro ⟨h, -⟩; cases h
      simp [tick, hc, hgd, hgm, fireReset_recogs]
    · simp only [tick, hc, hgd, if_false, fireReset_last, fireReset_recogs]
      split_ifs <;> simp_all

theorem runTicks_last (env : Env) :
    ∀ (l : List TickIn) (s : AppState),
      ((runTicks env s l).last ≠ none) ↔
        (match lastSig l with
         | some g => g = Gesture.DRAW
         | none => s.last ≠ none) := by
  intro l
  induction l with
  | nil => intro s; simp [runTicks, lastSig]
  | cons i l ih =>
    intro s
    have hrun : runTicks env s (i :: l) = runTicks env (tick env s i) l := rfl
    rw [hrun, ih]
    cases hls : lastSig l with
    | some g => simp [lastSig, hls]
    | none =>
      cases hc : i.cursor with
      | none => simp [lastSig, hls, hc, tick_last, Option.isSome]
      | some c => simp [lastSig, hls, hc, tick_last, Option.isSome]

/-- C2: on every tick carrying a cursor signal, recognition is triggered
iff the previous signal-bearing tick had gesture DRAW (a draw run just
ended) and the current gesture is MOVE; in particular a NONE pause never
triggers recognition, and every non-DRAW branch resets the last draw
point to none (clearing the stroke).  Ticks without a cursor signal are
no-ops per the spec, so the previous tick is the latest one that carried
a signal. -/
theorem C2_recognition_edge_triggered (env : Env) (trace : List TickIn) (i : TickIn)
    (hsig : i.cursor.isSome = true) :
    ((tick env (runTicks env initState trace) i).recogs.length
        = (runTicks env initState trace).recogs.length + 1
      ↔ i.gesture = Gesture.MOVE ∧ lastSig trace = some Gesture.DRAW) ∧
    (¬ (i.gesture = Gesture.MOVE ∧ lastSig trace = some Gesture.DRAW) →
      (tick env (runTicks env initState trace) i).recogs
        = (runTicks env initState trace).recogs) ∧
    (i.gesture ≠ Gesture.DRAW → (tick env (runTicks env initState trace) i).last = none) := by
  set s := runTicks env initState trace with hs
  have hlast : (s.last ≠ none) ↔ lastSig trace = some Gesture.DRAW := by
    rw [hs, runTicks_last]
    cases hls : lastSig trace with
    | none => simp [initState]
    | some g => simp
  have hrec := tick_recogs env s i
  rw [hsig] at hrec
  simp only [true_and] at hrec
  refine ⟨?_, ?_, ?_⟩
  · rw [hrec]
    by_cases h : i.gesture = Gesture.MOVE ∧ s.last ≠ none
    · rw [if_pos h]
      exact ⟨fun _ => ⟨h.1, hlast.mp h.2⟩, fun _ => by simp⟩
    · rw [if_neg h]
      constructor
      · intro habs
        omega
      · intro habs
        exact absurd ⟨habs.1, hlast.mpr habs.2⟩ h
  · intro hn
    rw [hrec, if_neg]
    intro habs
    exact hn ⟨habs.1, hlast.mp habs.2⟩
  · intro hnd
    have ht := tick_last env s i
    rw [hsig] at ht
    simp only [if_true] at ht
    by_contra habs
    exact hnd (ht.mp habs)

/-- Concrete environment used by the witnesses: one huge enabled button,
camera 640 x 480, window 1100 x 700. -/
def envW : Env :=
  ⟨[⟨-1000, -1000, 1000000, 1000000, true⟩], 0, 0, 1200, 700, 640, 480, 1100, 700⟩

def traceW : List TickIn := [⟨Gesture.DRAW, some (140, 140), 0⟩]

def tickW : TickIn := ⟨Gesture.MOVE, some (140, 140), 10⟩

/-- C2 witness: after one DRAW tick, a MOVE tick with a signal triggers
exactly one recognition. -/
theorem C2_witness :
    ((tick envW (runTicks envW initState traceW) tickW).recogs.length
        = (runTicks envW initState traceW).recogs.length + 1
      ↔ tickW.gesture = Gesture.MOVE ∧ lastSig traceW = some Gesture.DRAW) ∧
    (¬ (tickW.gesture = Gesture.MOVE ∧ lastSig traceW = some Gesture.DRAW) →
      (tick envW (runTicks envW initState traceW) tickW).recogs
        = (runTicks envW initState traceW).recogs) ∧
    (tickW.gesture ≠ Gesture.DRAW →
      (tick envW (runTicks envW initState traceW) tickW).last = none) :=
  C2_recognition_edge_triggered envW traceW tickW rfl

/-! ## Pinch-click debounce (C4) -/

/-- Committed clicks (newest first) are pairwise separated by at least
the cooldown: at most one commit per cooldown window. -/
def clicksSeparated (l : List ℕ) : Prop :=
  List.Chain' (fun a b => b + PINCH_COOLDOWN_MS ≤ a) l

/-- Debounce invariant at a moment `t` (no future tick is earlier than
`t`): clicks are separated; while the latch is set, the scheduled reset
is due exactly one cooldown after the newest click; once the latch is
clear, a full cooldown has already elapsed since the newest click. -/
def DebounceInv (s : AppState) (t : ℕ) : Prop :=
  clicksSeparated s.clicks ∧
  (s.pinchActive = true →
    ∃ c, s.clicks.head? = some c ∧ s.resetAt = some (c + PINCH_COOLDOWN_MS)) ∧
  (s.pinchActive = false →
    ∀ c, s.clicks.head? = some c → c + PINCH_COOLDOWN_MS ≤ t)

/-- Tick timestamps are nondecreasing and start no earlier than `t`. -/
def SortedFrom (t : ℕ) : List TickIn → Prop
  | [] => True
  | i :: l => t ≤ i.t ∧ SortedFrom i.t l

theorem inv_mono {s : AppState} {t t2 : ℕ} (h : DebounceInv s t) (ht : t ≤ t2) : DebounceInv s t2 :=
  ⟨h.1, h.2.1, fun hpa c hc => (h.2.2 hpa c hc).trans ht⟩

theorem fireReset_inv {s : AppState} {t : ℕ} (h : DebounceInv s t) : DebounceInv (fireReset s t) t := by
  cases hr : s.resetAt with
  | none => simp only [fireReset, hr]; exact h
  | some r =>
    simp only [fireReset, hr]
    split_ifs with hrt
    · refine ⟨h.1, ?_, ?_⟩
      · intro hfalse; exact absurd hfalse (by simp)
      · intro _ c hc
        cases hpa : s.pinchActive with
        | true =>
          obtain ⟨c0, hh, hra⟩ := h.2.1 hpa
          rw [hr] at hra
          have hrc : r = c0 + PINCH_COOLDOWN_MS := by injection hra
          have hcc : c = c0 := by
            have : s.clicks.head? = some c := hc
            rw [hh] at this
            injection this with h2
            exact h2.symm
          rw [hcc, ← hrc]
          exact hrt
        | false => exact h.2.2 hpa c hc
    · exact h

theorem tick_inv {env : Env} {s : AppState} {i : TickIn} (h : DebounceInv s i.t) :
    DebounceInv (tick env s i) i.t := by
  have h0 : DebounceInv (fireReset s i.t) i.t := fireReset_inv h
  cases hc : i.cursor with
  | none => simp only [tick, hc]; exact h0
  | some c =>
    simp only [tick, hc]
    by_cases hg : i.gesture = Gesture.DRAW
    · rw [if_pos hg]; exact h0
    · rw [if_neg hg]
      by_cases hp : i.gesture = Gesture.PINCH ∧ (fireReset s i.t).pinchActive = false ∧
          hitTest env.buttons (smoothPt env (fireReset s i.t) c) ≠ none
      · rw [if_pos hp]
        refine ⟨?_, fun _ => ⟨i.t, rfl, rfl⟩, ?_⟩
        · show List.Chain' _ (i.t :: (fireReset s i.t).clicks)
          cases hcl : (fireReset s i.t).clicks with
          | nil => simp [clicksSeparated]
          | cons c0 rest =>
            have hsep : c0 + PINCH_COOLDOWN_MS ≤ i.t := by
              refine h0.2.2 hp.2.1 c0 ?_
              rw [hcl]; rfl
            have hch := h0.1
            rw [hcl] at hch
            exact List.chain'_cons.mpr ⟨hsep, hch⟩
        · intro hfalse
          exact absurd hfalse (by simp)
      · rw [if_neg hp]; exact h0

theorem runTicks_inv (env : Env) :
    ∀ (l : List TickIn) (s : AppState) (t : ℕ), DebounceInv s t → SortedFrom t l →
      clicksSeparated (runTicks env s l).clicks := by
  intro l
  induction l with
  | nil => intro s t h _; exact h.1
  | cons i l ih =>
    intro s t h hs
    obtain ⟨h1, h2⟩ := hs
    exact ih (tick env s i) i.t (tick_inv (inv_mono h h1)) h2

theorem initState_inv (t : ℕ) : DebounceInv initState t := by
  refine ⟨by simp [clicksSeparated, initState], ?_, ?_⟩
  · intro hfalse; exact absurd hfalse (by simp [initState])
  · intro _ c hc; exact absurd hc (by simp [initState])

theorem tick_hovered (env : Env) (s : AppState) (i : TickIn) (c : ℤ × ℤ)
    (hc : i.cursor = some c) :
    (tick env s i).hovered = hitTest env.buttons (smoothPt env (fireReset s i.t) c) := by
  simp only [tick, hc]
  split_ifs <;> rfl

theorem fireReset_none {s : AppState} {t : ℕ} (hr : s.resetAt = none) :
    fireReset s t = s := by
  simp [fireReset, hr]

theorem fireReset_due {s : AppState} {t r : ℕ} (hr : s.resetAt = some r) (hrt : r ≤ t) :
    fireReset s t = { s with pinchActive := false, resetAt := none } := by
  simp [fireReset, hr, hrt]

theorem fireReset_early {s : AppState} {t r : ℕ} (hr : s.resetAt = some r)
    (hrt : ¬ r ≤ t) : fireReset s t = s := by
  simp [fireReset, hr, hrt]

theorem fireReset_smooth (s : AppState) (t : ℕ) : (fireReset s t).smooth = s.smooth := by
  unfold fireReset
  cases s.resetAt <;> simp <;> split_ifs <;> rfl

/-- Effect of a PINCH tick while the latch is clear and a target is
hovered: the click commits, the latch is set, and the reset is scheduled
one cooldown later (air_predict_app.py, _handle_pinch_click). -/
theorem tick_pinch_commit (env : Env) (s : AppState) (i : TickIn) (c : ℤ × ℤ)
    (hc : i.cursor = some c) (hgp : i.gesture = Gesture.PINCH)
    (hpa : (fireReset s i.t).pinchActive = false)
    (hhov : hitTest env.buttons (smoothPt env (fireReset s i.t) c) ≠ none) :
    (tick env s i).clicks = i.t :: (fireReset s i.t).clicks ∧
    (tick env s i).pinchActive = true ∧
    (tick env s i).resetAt = some (i.t + PINCH_COOLDOWN_MS) ∧
    (tick env s i).smooth = smoothPt env (fireReset s i.t) c := by
  simp only [tick, hc]
  rw [if_neg (by rw [hgp]; intro h; cases h)]
  rw [if_pos ⟨hgp, hpa, hhov⟩]
  exact ⟨rfl, rfl, rfl, rfl⟩

/-- Effect of a PINCH tick while the latch is still set: no click. -/
theorem tick_pinch_latched (env : Env) (s : AppState) (i : TickIn) (c : ℤ × ℤ)
    (hc : i.cursor = some c) (hgp : i.gesture = Gesture.PINCH)
    (hpa : (fireReset s i.t).pinchActive = true) :
    (tick env s i).clicks = (fireReset s i.t).clicks := by
  simp only [tick, hc]
  rw [if_neg (by rw [hgp]; intro h; cases h)]
  rw [if_neg (by rintro ⟨-, h2, -⟩; rw [hpa] at h2; cases h2)]

/-- C4: pinch-click debouncing.  (a) Along any chronologically ordered
tick sequence from session start, committed clicks are separated by at
least the 500 ms cooldown: at most one commit per cooldown window no
matter how many ticks report PINCH.  (b) Two hovering PINCH ticks closer
than the cooldown commit exactly one click; (c) separated by more than
the cooldown they commit exactly two. -/
theorem C4_pinch_debounce :
    (∀ (env : Env) (trace : List TickIn), SortedFrom 0 trace →
      clicksSeparated (runTicks env initState trace).clicks) ∧
    (∀ (env : Env) (c0 c1 : ℤ × ℤ) (t0 t1 : ℕ),
      t0 ≤ t1 → t1 < t0 + PINCH_COOLDOWN_MS →
      (tick env initState ⟨Gesture.PINCH, some c0, t0⟩).hovered ≠ none →
      (runTicks env initState
        [⟨Gesture.PINCH, some c0, t0⟩, ⟨Gesture.PINCH, some c1, t1⟩]).clicks = [t0]) ∧
    (∀ (env : Env) (c0 c1 : ℤ × ℤ) (t0 t1 : ℕ),
      t0 + PINCH_COOLDOWN_MS < t1 →
      (tick env initState ⟨Gesture.PINCH, some c0, t0⟩).hovered ≠ none →
      (tick env (tick env initState ⟨Gesture.PINCH, some c0, t0⟩)
        ⟨Gesture.PINCH, some c1, t1⟩).hovered ≠ none →
      (runTicks env initState
        [⟨Gesture.PINCH, some c0, t0⟩, ⟨Gesture.PINCH, some c1, t1⟩]).clicks
        = [t1, t0]) := by
  refine ⟨?_, ?_, ?_⟩
  · intro env trace hsorted
    exact runTicks_inv env trace initState 0 (initState_inv 0) hsorted
  · intro env c0 c1 t0 t1 h01 hlt hov0
    have hfr0 : fireReset initState (⟨Gesture.PINCH, some c0, t0⟩ : TickIn).t = initState :=
      fireReset_none rfl
    rw [tick_hovered env initState _ c0 rfl, hfr0] at hov0
    have h1 := tick_pinch_commit env initState ⟨Gesture.PINCH, some c0, t0⟩ c0 rfl rfl
      (by rw [hfr0]; rfl) (by rw [hfr0]; exact hov0)
    have hfr1 : fireReset (tick env initState ⟨Gesture.PINCH, some c0, t0⟩)
        (⟨Gesture.PINCH, some c1, t1⟩ : TickIn).t
        = tick env initState ⟨Gesture.PINCH, some c0, t0⟩ :=
      fireReset_early h1.2.2.1 (by simpa using Nat.not_le.mpr hlt)
    have h2 := tick_pinch_latched env (tick env initState ⟨Gesture.PINCH, some c0, t0⟩)
      ⟨Gesture.PINCH, some c1, t1⟩ c1 rfl rfl (by rw [hfr1]; exact h1.2.1)
    show (tick env (tick env initState ⟨Gesture.PINCH, some c0, t0⟩)
      ⟨Gesture.PINCH, some c1, t1⟩).clicks = [t0]
    rw [h2, hfr1, h1.1, hfr0]
    rfl
  · intro env c0 c1 t0 t1 hgt hov0 hov1
    have hfr0 : fireReset initState (⟨Gesture.PINCH, some c0, t0⟩ : TickIn).t = initState :=
      fireReset_none rfl
    rw [tick_hovered env initState _ c0 rfl, hfr0] at hov0
    have h1 := tick_pinch_commit env initState ⟨Gesture.PINCH, some c0, t0⟩ c0 rfl rfl
      (by rw [hfr0]; rfl) (by rw [hfr0]; exact hov0)
    have hfr1 : fireReset (tick env initState ⟨Gesture.PINCH, some c0, t0⟩)
        (⟨Gesture.PINCH, some c1, t1⟩ : TickIn).t
        = { tick env initState ⟨Gesture.PINCH, some c0, t0⟩ with
            pinchActive := false, resetAt := none } :=
      fireReset_due h1.2.2.1 (by simpa using Nat.le_of_lt hgt)
    rw [tick_hovered env _ _ c1 rfl] at hov1
    have h2 := tick_pinch_commit env (tick env initState ⟨Gesture.PINCH, some c0, t0⟩)
      ⟨Gesture.PINCH, some c1, t1⟩ c1 rfl rfl (by rw [hfr1]) hov1
    show (tick env (tick env initState ⟨Gesture.PINCH, some c0, t0⟩)
      ⟨Gesture.PINCH, some c1, t1⟩).clicks = [t1, t0]
    rw [h2.1, hfr1]
    show t1 :: (tick env initState ⟨Gesture.PINCH, some c0, t0⟩).clicks = [t1, t0]
    rw [h1.1, hfr0]
    rfl

theorem pyInt_zero : pyInt 0 = 0 := by simpa using pyInt_intCast 0

theorem map_axis_left {camDim : ℚ} {winDim : ℤ} {x : ℚ} (hx : x ≤ FRAME_PADDING)
    (hw : 0 ≤ winDim) : map_axis camDim winDim x = 0 := by
  have hwq : (0 : ℚ) ≤ (winDim : ℚ) := by exact_mod_cast hw
  have h1 : np_interp x FRAME_PADDING (camDim - FRAME_PADDING) 0 (winDim : ℚ) = 0 := by
    rw [np_interp, if_pos hx]
  have h2 : np_clip (0 : ℚ) 0 (winDim : ℚ) = 0 := by
    rw [np_clip, max_self, min_eq_right hwq]
  rw [map_axis, h1, h2, pyInt_zero]

theorem smooth_step_zero : smooth_step 0 0 = 0 := by
  have h : SMOOTHING_ALPHA * ((0 : ℤ) : ℚ) + (1 - SMOOTHING_ALPHA) * ((0 : ℤ) : ℚ) = 0 := by
    push_cast
    ring
  rw [smooth_step, h, pyInt_zero]

theorem smoothPt_zero (env : Env) (s : AppState) (hs : s.smooth = (0, 0))
    (hW : 0 ≤ env.winW) (hH : 0 ≤ env.winH) :
    smoothPt env s ((0 : ℤ), (0 : ℤ)) = (0, 0) := by
  have h1 : map_axis env.camW env.winW (0 : ℚ) = 0 :=
    map_axis_left (by norm_num [FRAME_PADDING]) hW
  have h2 : map_axis env.camH env.winH (0 : ℚ) = 0 :=
    map_axis_left (by norm_num [FRAME_PADDING]) hH
  simp [smoothPt, map_coords, h1, h2, hs, smooth_step_zero]

/-- C4 witness: from session start, PINCH ticks at 100 ms and 300 ms
commit one click, PINCH ticks at 100 ms and 700 ms commit two, and the
commit times are cooldown-separated. -/
theorem C4_witness :
    clicksSeparated (runTicks envW initState
      [⟨Gesture.PINCH, some (0, 0), 100⟩, ⟨Gesture.PINCH, some (0, 0), 700⟩]).clicks ∧
    (runTicks envW initState
      [⟨Gesture.PINCH, some (0, 0), 100⟩, ⟨Gesture.PINCH, some (0, 0), 300⟩]).clicks
      = [100] ∧
    (runTicks envW initState
      [⟨Gesture.PINCH, some (0, 0), 100⟩, ⟨Gesture.PINCH, some (0, 0), 700⟩]).clicks
      = [700, 100] := by
  have hW : (0 : ℤ) ≤ envW.winW := by decide
  have hH : (0 : ℤ) ≤ envW.winH := by decide
  have hht : hitTest envW.buttons ((0 : ℤ), (0 : ℤ)) ≠ none := by decide
  have hfr0 : fireReset initState
      (⟨Gesture.PINCH, some ((0 : ℤ), (0 : ℤ)), 100⟩ : TickIn).t = initState :=
    fireReset_none rfl
  have hsm0 : smoothPt envW initState ((0 : ℤ), (0 : ℤ)) = (0, 0) :=
    smoothPt_zero envW initState rfl hW hH
  have hov0 : (tick envW initState ⟨Gesture.PINCH, some (0, 0), 100⟩).hovered ≠ none := by
    rw [tick_hovered envW initState _ ((0 : ℤ), (0 : ℤ)) rfl, hfr0, hsm0]
    exact hht
  have hov1 : (tick envW (tick envW initState ⟨Gesture.PINCH, some (0, 0), 100⟩)
      ⟨Gesture.PINCH, some (0, 0), 700⟩).hovered ≠ none := by
    rw [tick_hovered envW _ _ ((0 : ℤ), (0 : ℤ)) rfl]
    have h1 := tick_pinch_commit envW initState ⟨Gesture.PINCH, some (0, 0), 100⟩
      ((0 : ℤ), (0 : ℤ)) rfl rfl (by rw [hfr0]; rfl) (by rw [hfr0, hsm0]; exact hht)
    have hs1 : (tick envW initState ⟨Gesture.PINCH, some (0, 0), 100⟩).smooth = (0, 0) := by
      rw [h1.2.2.2, hfr0, hsm0]
    have hfs : (fireReset (tick envW initState ⟨Gesture.PINCH, some (0, 0), 100⟩)
        (⟨Gesture.PINCH, some ((0 : ℤ), (0 : ℤ)), 700⟩ : TickIn).t).smooth = (0, 0) := by
      rw [fireReset_smooth]
      exact hs1
    rw [smoothPt_zero envW _ hfs hW hH]
    exact hht
  refine ⟨?_, ?_, ?_⟩
  · refine C4_pinch_debounce.1 envW _ ?_
    refine ⟨by decide, by decide, trivial⟩
  · exact C4_pinch_debounce.2.1 envW (0, 0) (0, 0) 100 300 (by decide)
      (by rw [PINCH_COOLDOWN_MS]; omega) hov0
  · exact C4_pinch_debounce.2.2 envW (0, 0) (0, 0) 100 700
      (by rw [PINCH_COOLDOWN_MS]; omega) hov0 hov1

/-! ## Glyph normalization (air_predict_app.py, _preprocess_canvas_image)

Images are grayscale bitmaps with natural-number intensities (uint8 in
the source).  cv2.findContours with RETR_EXTERNAL is modelled as the
list of 8-connected components of the nonzero pixels, discovered in
raster-scan order; cv2.boundingRect of an outer contour equals the
bounding box of its component, so components stand in for contours. -/

/-- A grayscale bitmap: dimensions plus intensity per (row, column). -/
structure Img where
  rows : ℕ
  cols : ℕ
  pix : ℕ → ℕ → ℕ

/-- cv2.bitwise_not on uint8: invert so the mark is bright-on-dark. -/
def invertImg (i : Img) : Img := ⟨i.rows, i.cols, fun r c => 255 - i.pix r c⟩

/-- All pixel positions in raster-scan order. -/
def allPix (i : Img) : List (ℕ × ℕ) :=
  (List.range i.rows).flatMap fun r => (List.range i.cols).map fun c => (r, c)

/-- Foreground test: in range and nonzero. -/
def fgb (i : Img) (p : ℕ × ℕ) : Bool :=
  decide (p.1 < i.rows) && decide (p.2 < i.cols) && decide (i.pix p.1 p.2 ≠ 0)

/-- All non-background pixel positions. -/
def fgList (i : Img) : List (ℕ × ℕ) := (allPix i).filter (fgb i)

/-- Adjacency of pixel positions in the 8-neighbourhood. -/
def adj8 (p q : ℕ × ℕ) : Bool :=
  decide (p ≠ q) && decide (p.1 ≤ q.1 + 1) && decide (q.1 ≤ p.1 + 1) &&
  decide (p.2 ≤ q.2 + 1) && decide (q.2 ≤ p.2 + 1)

/-- One expansion step of a set of pixels by adjacent foreground pixels. -/
def grow (i : Img) (S : List (ℕ × ℕ)) : List (ℕ × ℕ) :=
  S ++ (allPix i).filter fun q => fgb i q && !(S.contains q) && S.any fun p => adj8 p q

/-- The 8-connected component of a seed pixel (fixed point of `grow`
after as many steps as there are pixels). -/
def component (i : Img) (p : ℕ × ℕ) : List (ℕ × ℕ) :=
  (grow i)^[i.rows * i.cols] [p]

/-- cv2.findContours (RETR_EXTERNAL) model: the components of the
nonzero pixels, one per outer contour, in raster discovery order. -/
def findContours (i : Img) : List (List (ℕ × ℕ)) :=
  (allPix i).foldl
    (fun acc p =>
      if fgb i p && !(acc.any fun comp => comp.contains p) then acc ++ [component i p]
      else acc)
    []

def listMin : List ℕ → ℕ
  | [] => 0
  | x :: xs => xs.foldl min x

def listMax : List ℕ → ℕ
  | [] => 0
  | x :: xs => xs.foldl max x

/-- cv2.boundingRect: (x, y, w, h) of a point list (x along columns). -/
def boundingRect (pts : List (ℕ × ℕ)) : ℕ × ℕ × ℕ × ℕ :=
  (listMin (pts.map Prod.snd), listMin (pts.map Prod.fst),
   listMax (pts.map Prod.snd) - listMin (pts.map Prod.snd) + 1,
   listMax (pts.map Prod.fst) - listMin (pts.map Prod.fst) + 1)

/-- The tight bounding box of all non-background pixels (what the spec
claims the crop region is), or none when there is no such pixel. -/
def tightBBox (i : Img) : Option (ℕ × ℕ × ℕ × ℕ) :=
  match fgList i with
  | [] => none
  | l => some (boundingRect l)

/-- The crop rectangle the code actually uses: the bounding box of
contours[0], the first contour found (air_predict_app.py line 348). -/
def cropRect (img : Img) : Option (ℕ × ℕ × ℕ × ℕ) :=
  match findContours (invertImg img) with
  | [] => none
  | cont :: _ => some (boundingRect cont)

theorem mem_allPix (i : Img) (p : ℕ × ℕ) :
    p ∈ allPix i ↔ p.1 < i.rows ∧ p.2 < i.cols := by
  cases p with
  | mk r c => simp [allPix, List.mem_flatMap, List.mem_map, List.mem_range]

theorem findContours_fold_nil (i : Img) :
    ∀ (l : List (ℕ × ℕ)) (acc : List (List (ℕ × ℕ))),
      l.foldl
        (fun acc p =>
          if fgb i p && !(acc.any fun comp => comp.contains p) then acc ++ [component i p]
          else acc)
        acc = [] →
      acc = [] ∧ ∀ p ∈ l, fgb i p = false := by
  intro l
  induction l with
  | nil => intro acc h; exact ⟨h, by simp⟩
  | cons p l ih =>
    intro acc h
    rw [List.foldl_cons] at h
    obtain ⟨hstep, hrest⟩ := ih _ h
    by_cases hcond : (fgb i p && !(acc.any fun comp => comp.contains p)) = true
    · rw [if_pos hcond] at hstep
      exact absurd hstep (by simp)
    · rw [if_neg hcond] at hstep
      subst hstep
      refine ⟨rfl, ?_⟩
      intro q hq
      rcases List.mem_cons.mp hq with hq | hq
      · subst hq
        simpa using hcond
      · exact hrest q hq

theorem findContours_nil_iff (i : Img) :
    findContours i = [] ↔ ∀ p ∈ allPix i, fgb i p = false := by
  constructor
  · intro h
    exact (findContours_fold_nil i (allPix i) [] h).2
  · intro h
    have hgen : ∀ (l : List (ℕ × ℕ)), (∀ p ∈ l, fgb i p = false) →
        l.foldl
          (fun acc p =>
            if fgb i p && !(acc.any fun comp => comp.contains p) then
              acc ++ [component i p]
            else acc)
          [] = [] := by
      intro l
      induction l with
      | nil => intro _; rfl
      | cons p l ih =>
        intro hl
        rw [List.foldl_cons, if_neg (by simp [hl p (List.mem_cons_self p l)])]
        exact ih fun q hq => hl q (List.mem_cons_of_mem p hq)
    exact hgen (allPix i) h

theorem fgb_invert_false (img : Img) (p : ℕ × ℕ) :
    fgb (invertImg img) p = false ↔
      (p.1 < img.rows → p.2 < img.cols → (invertImg img).pix p.1 p.2 = 0) := by
  simp only [fgb, invertImg, Bool.and_eq_false_iff, decide_eq_false_iff_not, not_not]
  constructor
  · rintro (h | h) h1 h2
    · rcases h with h | h
      · exact absurd h1 h
      · exact absurd h2 h
    · exact h
  · intro h
    by_cases h1 : p.1 < img.rows
    · by_cases h2 : p.2 < img.cols
      · exact Or.inr (h h1 h2)
      · exact Or.inl (Or.inr h2)
    · exact Or.inl (Or.inl h1)

/-- C3 amended: the crop region is the bounding box of the first contour
found by findContours (one 8-connected component of the non-background
pixels), and the pipeline fails with "no glyph" precisely when no
non-background pixel exists after inversion. -/
theorem C3_crop_is_first_contour_bbox (img : Img) :
    (cropRect img = none ↔
      ∀ r, r < img.rows → ∀ c, c < img.cols → (invertImg img).pix r c = 0) ∧
    (∀ cont rest, findContours (invertImg img) = cont :: rest →
      cropRect img = some (boundingRect cont)) := by
  constructor
  · constructor
    · intro h r hr c hc
      have hfc : findContours (invertImg img) = [] := by
        cases hfc2 : findContours (invertImg img) with
        | nil => rfl
        | cons a l => simp [cropRect, hfc2] at h
      have hall := (findContours_nil_iff (invertImg img)).mp hfc
      have hm : ((r, c) : ℕ × ℕ) ∈ allPix (invertImg img) :=
        (mem_allPix _ _).mpr ⟨hr, hc⟩
      exact (fgb_invert_false img (r, c)).mp (hall (r, c) hm) hr hc
    · intro h
      have hfc : findContours (invertImg img) = [] := by
        rw [findContours_nil_iff]
        intro p hp
        obtain ⟨h1, h2⟩ := (mem_allPix _ p).mp hp
        exact (fgb_invert_false img p).mpr (fun _ _ => h p.1 h1 p.2 h2)
      simp [cropRect, hfc]
  · intro cont rest hfc
    simp [cropRect, hfc]

/-- Concrete image with two disconnected ink dots at opposite corners. -/
def imgC3 : Img :=
  ⟨4, 4, fun r c => if (r = 0 ∧ c = 0) ∨ (r = 3 ∧ c = 3) then 0 else 255⟩

/-- C3 counterexample: for a glyph with two disconnected components the
crop region (bounding box of the first contour) is a 1 x 1 box, while
the tight bounding box of all non-background pixels is 4 x 4; no
contour's bounding box equals the tight one, whichever contour ordering
cv2 returns. -/
theorem C3_counterexample_crop_not_tight :
    cropRect imgC3 ≠ none ∧
    tightBBox (invertImg imgC3) = some (0, 0, 4, 4) ∧
    cropRect imgC3 ≠ tightBBox (invertImg imgC3) ∧
    ∀ cont ∈ findContours (invertImg imgC3),
      some (boundingRect cont) ≠ tightBBox (invertImg imgC3) := by
  exact ⟨by decide, by decide, by decide, by decide⟩

/-- Single-black-pixel image for the C3 witness. -/
def imgW1 : Img := ⟨1, 1, fun _ _ => 0⟩

/-- C3 witness: on a one-pixel glyph the failure characterization holds
and the crop is the bounding box of the unique contour. -/
theorem C3_witness :
    (cropRect imgW1 = none ↔
      ∀ r, r < imgW1.rows → ∀ c, c < imgW1.cols → (invertImg imgW1).pix r c = 0) ∧
    cropRect imgW1 = some (boundingRect [(0, 0)]) :=
  ⟨(C3_crop_is_first_contour_bbox imgW1).1,
   (C3_crop_is_first_contour_bbox imgW1).2 [(0, 0)] [] (by decide)⟩

/-- cv2 rounding of a nonnegative value to the nearest integer. -/
def rnd (q : ℚ) : ℕ := (⌊q + 1 / 2⌋).toNat

/-- Overlap length of destination cell `d` (scaled back to source
coordinates) with source cell `s`, for area-averaging resize. -/
def wgt (srcLen dstLen d s : ℕ) : ℚ :=
  max 0 (min (((d : ℚ) + 1) * srcLen / dstLen) ((s : ℚ) + 1) -
    max ((d : ℚ) * srcLen / dstLen) (s : ℚ))

/-- Exact area average of the source pixels covered by destination
pixel (r, c); models cv2.resize with INTER_AREA. -/
def areaAvg (i : Img) (nR nC r c : ℕ) : ℚ :=
  let W := ∑ rr ∈ Finset.range i.rows, ∑ cc ∈ Finset.range i.cols,
    wgt i.rows nR r rr * wgt i.cols nC c cc
  let S := ∑ rr ∈ Finset.range i.rows, ∑ cc ∈ Finset.range i.cols,
    wgt i.rows nR r rr * wgt i.cols nC c cc * (i.pix rr cc : ℚ)
  if W = 0 then 0 else S / W

/-- cv2.resize(·, (nC, nR), interpolation=INTER_AREA). -/
def resizeArea (i : Img) (nR nC : ℕ) : Img :=
  ⟨nR, nC, fun r c => rnd (areaAvg i nR nC r c)⟩

/-- Numpy slice img[y:y+h, x:x+w]. -/
def cropImg (i : Img) (x y w h : ℕ) : Img := ⟨h, w, fun r c => i.pix (y + r) (x + c)⟩

/-- cv2.copyMakeBorder with BORDER_CONSTANT value 0. -/
def padImg (i : Img) (top bottom left right : ℕ) : Img :=
  ⟨top + i.rows + bottom, left + i.cols + right,
   fun r c =>
     if top ≤ r ∧ r < top + i.rows ∧ left ≤ c ∧ c < left + i.cols then
       i.pix (r - top) (c - left)
     else 0⟩

/-- The normalized glyph tensor: a rational-valued image (the final
(1, 28, 28, 1) reshape only adds singleton axes, so the model keeps the
28 x 28 plane). -/
structure QImg where
  rows : ℕ
  cols : ℕ
  qpix : ℕ → ℕ → ℚ

/-- Steps 4-10 of _preprocess_canvas_image (air_predict_app.py lines
339-368): invert, crop to the first contour's bounding box, pad to a
square (centering, odd remainder to the trailing side), area-resize to
20 x 20, add a uniform 4-pixel background border, divide by 255. -/
def preprocess_canvas_image (img : Img) : Option QImg :=
  let inv := invertImg img
  match cropRect img with
  | none => none
  | some (x, y, w, h) =>
    let char1 := cropImg inv x y w h
    let side_len := max w h
    let padding_top := (side_len - h) / 2
    let padding_bottom := side_len - h - padding_top
    let padding_left := (side_len - w) / 2
    let padding_right := side_len - w - padding_left
    let char2 := padImg char1 padding_top padding_bottom padding_left padding_right
    let char3 := resizeArea char2 20 20
    let final_img := padImg char3 4 4 4 4
    some ⟨final_img.rows, final_img.cols, fun r c => (final_img.pix r c : ℚ) / 255⟩

/-! ## Character recognition (air_predict_app.py, _recognize_character) -/

/-- Recognition modes of the application. -/
inductive Mode
  | ALPHABETS
  | NUMBERS
deriving DecidableEq

def ALPHABET_LABELS : String := "ABCDEFGHIJKLMNOPQRSTUVWXYZ"

def NUMBER_LABELS : String := "0123456789"

/-- The label alphabet of the active mode. -/
def labels_for : Mode → List Char
  | Mode.ALPHABETS => ALPHABET_LABELS.toList
  | Mode.NUMBERS => NUMBER_LABELS.toList

def argmaxAux : ℕ → ℕ → ℚ → List ℚ → ℕ
  | _, bi, _, [] => bi
  | i, bi, bv, v :: vs =>
    if bv < v then argmaxAux (i + 1) i v vs else argmaxAux (i + 1) bi bv vs

/-- np.argmax on a probability vector: index of the first maximum
(0 on an empty vector). -/
def np_argmax : List ℚ → ℕ
  | [] => 0
  | v :: vs => argmaxAux 1 0 v vs

/-- State touched by _recognize_character: the sentence buffer, the
canvas ink, and the active mode. -/
structure RState where
  sentence : String
  strokes : List ((ℤ × ℤ) × (ℤ × ℤ))
  mode : Mode

/-- Result of one recognition: new state, the character handed to the
TTS queue, and whether an out-of-bounds prediction was logged. -/
structure RecogOut where
  state : RState
  spoken : Option Char
  errorLogged : Bool

/-- Lines 293-306: arg-max the prediction, guard against an index
outside the label alphabet (discard and log), otherwise append the
character and request speech.  The delayed canvas clear scheduled at
line 309 is not part of the immediate state change. -/
def applyPrediction (prediction : List ℚ) (s : RState) : RecogOut :=
  let predicted_index := np_argmax prediction
  let labels := labels_for s.mode
  if predicted_index < labels.length then
    let ch := labels.getD predicted_index 'A'
    ⟨{ s with sentence := s.sentence.push ch }, some ch, false⟩
  else
    ⟨s, none, true⟩

/-- Body of _recognize_character (lines 273-309): preprocess the canvas; on "no
glyph" clear the drawing immediately and abort silently; otherwise run
the active model on the tensor and apply the prediction. -/
def recognize_character (model : QImg → List ℚ) (s : RState) (img : Img) : RecogOut :=
  match preprocess_canvas_image img with
  | none => ⟨{ s with strokes := [] }, none, false⟩
  | some t => applyPrediction (model t) s

theorem wgt_nonneg (a b d s : ℕ) : 0 ≤ wgt a b d s := le_max_left 0 _

theorem rnd_le_255 {q : ℚ} (h : q ≤ 255) : rnd q ≤ 255 := by
  unfold rnd
  have h1 : ⌊q + 1 / 2⌋ ≤ 255 := by
    have h2 : q + 1 / 2 ≤ (255 : ℚ) + 1 / 2 := by linarith
    calc ⌊q + 1 / 2⌋ ≤ ⌊(255 : ℚ) + 1 / 2⌋ := Int.floor_le_floor h2
      _ = 255 := by rw [Int.floor_eq_iff] <;> norm_num
  omega

theorem areaAvg_bounds (i : Img) (hb : ∀ r c, i.pix r c ≤ 255) (nR nC r c : ℕ) :
    0 ≤ areaAvg i nR nC r c ∧ areaAvg i nR nC r c ≤ 255 := by
  simp only [areaAvg]
  split_ifs with hW
  · norm_num
  · have hWnn : (0 : ℚ) ≤ ∑ rr ∈ Finset.range i.rows, ∑ cc ∈ Finset.range i.cols,
        wgt i.rows nR r rr * wgt i.cols nC c cc :=
      Finset.sum_nonneg fun rr _ => Finset.sum_nonneg fun cc _ =>
        mul_nonneg (wgt_nonneg _ _ _ _) (wgt_nonneg _ _ _ _)
    have hWpos : (0 : ℚ) < ∑ rr ∈ Finset.range i.rows, ∑ cc ∈ Finset.range i.cols,
        wgt i.rows nR r rr * wgt i.cols nC c cc := lt_of_le_of_ne hWnn (Ne.symm hW)
    have hSnn : (0 : ℚ) ≤ ∑ rr ∈ Finset.range i.rows, ∑ cc ∈ Finset.range i.cols,
        wgt i.rows nR r rr * wgt i.cols nC c cc * (i.pix rr cc : ℚ) :=
      Finset.sum_nonneg fun rr _ => Finset.sum_nonneg fun cc _ =>
        mul_nonneg (mul_nonneg (wgt_nonneg _ _ _ _) (wgt_nonneg _ _ _ _))
          (Nat.cast_nonneg _)
    have hS255 : (∑ rr ∈ Finset.range i.rows, ∑ cc ∈ Finset.range i.cols,
        wgt i.rows nR r rr * wgt i.cols nC c cc * (i.pix rr cc : ℚ))
        ≤ 255 * ∑ rr ∈ Finset.range i.rows, ∑ cc ∈ Finset.range i.cols,
          wgt i.rows nR r rr * wgt i.cols nC c cc := by
      rw [Finset.mul_sum]
      refine Finset.sum_le_sum fun rr _ => ?_
      rw [Finset.mul_sum]
      refine Finset.sum_le_sum fun cc _ => ?_
      have hpix : (i.pix rr cc : ℚ) ≤ 255 := by exact_mod_cast hb rr cc
      nlinarith [mul_nonneg (wgt_nonneg i.rows nR r rr) (wgt_nonneg i.cols nC c cc)]
    refine ⟨div_nonneg hSnn hWnn, ?_⟩
    rw [div_le_iff hWpos]
    linarith
  

theorem invertImg_le (img : Img) : ∀ r c, (invertImg img).pix r c ≤ 255 :=
  fun _ _ => Nat.sub_le _ _

theorem cropImg_le {i : Img} {B : ℕ} (h : ∀ r c, i.pix r c ≤ B) (x y w hh : ℕ) :
    ∀ r c, (cropImg i x y w hh).pix r c ≤ B := fun _ _ => h _ _

theorem padImg_le {i : Img} {B : ℕ} (h : ∀ r c, i.pix r c ≤ B) (t b l rr : ℕ) :
    ∀ r c, (padImg i t b l rr).pix r c ≤ B := by
  intro r c
  simp only [padImg]
  split_ifs
  · exact h _ _
  · exact Nat.zero_le B

theorem resizeArea_le {i : Img} (h : ∀ r c, i.pix r c ≤ 255) (nR nC : ℕ) :
    ∀ r c, (resizeArea i nR nC).pix r c ≤ 255 :=
  fun r c => rnd_le_255 (areaAvg_bounds i h nR nC r c).2

/-- C7: glyph normalization is shape-stable: any bitmap with at least
one foreground (dark, < 255) pixel normalizes to exactly a 28 x 28
single-channel tensor with every value in [0, 1]; an all-background
bitmap yields "no glyph", recognition silently aborts, the ink is
cleared, and neither a character append nor a speech request happens. -/
theorem C7_glyph_normalization (img : Img) :
    ((∃ r, r < img.rows ∧ ∃ c, c < img.cols ∧ img.pix r c < 255) →
      ∃ t, preprocess_canvas_image img = some t ∧ t.rows = 28 ∧ t.cols = 28 ∧
        ∀ r c, 0 ≤ t.qpix r c ∧ t.qpix r c ≤ 1) ∧
    ((∀ r, r < img.rows → ∀ c, c < img.cols → 255 ≤ img.pix r c) →
      preprocess_canvas_image img = none ∧
      ∀ (model : QImg → List ℚ) (s : RState),
        (recognize_character model s img).state.sentence = s.sentence ∧
        (recognize_character model s img).state.strokes = [] ∧
        (recognize_character model s img).spoken = none) := by
  constructor
  · rintro ⟨r0, hr0, c0, hc0, hpix⟩
    have hne : findContours (invertImg img) ≠ [] := by
      intro hnil
      have hall := (findContours_nil_iff _).mp hnil
      have hm : ((r0, c0) : ℕ × ℕ) ∈ allPix (invertImg img) :=
        (mem_allPix _ _).mpr ⟨hr0, hc0⟩
      have hfalse := hall _ hm
      simp only [fgb, invertImg, Bool.and_eq_false_iff, decide_eq_false_iff_not,
        not_not] at hfalse
      rcases hfalse with (h | h) | h
      · exact h hr0
      · exact h hc0
      · omega
    obtain ⟨cont, rest, hfc⟩ := List.exists_cons_of_ne_nil hne
    have hcr0 : cropRect img = some (boundingRect cont) := by simp [cropRect, hfc]
    rcases hbb : boundingRect cont with ⟨x, y, w, h⟩
    rw [hbb] at hcr0
    refine ⟨⟨28, 28, fun r c =>
      ((padImg (resizeArea (padImg (cropImg (invertImg img) x y w h)
          ((max w h - h) / 2) (max w h - h - (max w h - h) / 2)
          ((max w h - w) / 2) (max w h - w - (max w h - w) / 2)) 20 20)
        4 4 4 4).pix r c : ℚ) / 255⟩, ?_, rfl, rfl, ?_⟩
    · simp only [preprocess_canvas_image, hcr0]
      rfl
    · intro r c
      have hb2 : ∀ a b, (padImg (cropImg (invertImg img) x y w h)
          ((max w h - h) / 2) (max w h - h - (max w h - h) / 2)
          ((max w h - w) / 2) (max w h - w - (max w h - w) / 2)).pix a b ≤ 255 :=
        padImg_le (cropImg_le (invertImg_le img) x y w h) _ _ _ _
      have hb4 := padImg_le (resizeArea_le hb2 20 20) 4 4 4 4 r c
      constructor
      · positivity
      · rw [div_le_one (by norm_num)]
        exact_mod_cast hb4
  · intro hall
    have hcr0 : cropRect img = none := by
      refine (C3_crop_is_first_contour_bbox img).1.mpr ?_
      intro r hr c hc
      have := hall r hr c hc
      simp only [invertImg]
      omega
    have hpre : preprocess_canvas_image img = none := by
      simp [preprocess_canvas_image, hcr0]
    refine ⟨hpre, ?_⟩
    intro model s
    simp [recognize_character, hpre]

/-- All-background (white) image for the C7 witness. -/
def imgWhite : Img := ⟨2, 2, fun _ _ => 255⟩

/-- C7 witness: the one-pixel glyph normalizes to a well-formed 28 x 28
tensor, and the all-white canvas aborts recognition, clears the ink,
and appends nothing. -/
theorem C7_witness :
    (∃ t, preprocess_canvas_image imgW1 = some t ∧ t.rows = 28 ∧ t.cols = 28 ∧
      ∀ r c, 0 ≤ t.qpix r c ∧ t.qpix r c ≤ 1) ∧
    (preprocess_canvas_image imgWhite = none ∧
      ∀ (model : QImg → List ℚ) (s : RState),
        (recognize_character model s imgWhite).state.sentence = s.sentence ∧
        (recognize_character model s imgWhite).state.strokes = [] ∧
        (recognize_character model s imgWhite).spoken = none) :=
  ⟨(C7_glyph_normalization imgW1).1 ⟨0, by decide, 0, by decide, by decide⟩,
   (C7_glyph_normalization imgWhite).2 fun _ _ _ _ => le_refl 255⟩

/-- C8: for every probability vector, an arg-max index outside the
active mode's label alphabet leaves the whole state unchanged, speaks
nothing and is logged; an index inside appends exactly the indexed
label character to the sentence and requests it be spoken. -/
theorem C8_argmax_guard (prediction : List ℚ) (s : RState) :
    (¬ np_argmax prediction < (labels_for s.mode).length →
      (applyPrediction prediction s).state = s ∧
      (applyPrediction prediction s).spoken = none ∧
      (applyPrediction prediction s).errorLogged = true) ∧
    (np_argmax prediction < (labels_for s.mode).length →
      (applyPrediction prediction s).state.sentence
        = s.sentence.push ((labels_for s.mode).getD (np_argmax prediction) 'A') ∧
      (applyPrediction prediction s).state.strokes = s.strokes ∧
      (applyPrediction prediction s).state.mode = s.mode ∧
      (applyPrediction prediction s).spoken
        = some ((labels_for s.mode).getD (np_argmax prediction) 'A') ∧
      (applyPrediction prediction s).errorLogged = false) := by
  constructor
  · intro h
    simp [applyPrediction, h]
  · intro h
    simp [applyPrediction, h]

/-- C8 witness: in NUMBERS mode an 11-entry prediction peaking at index
10 is discarded with the state unchanged; in ALPHABETS mode a prediction
peaking at index 1 appends and speaks labels[1]. -/
theorem C8_witness :
    ((applyPrediction [0, 0, 0, 0, 0, 0, 0, 0, 0, 0, 1]
        ⟨"HEL", [], Mode.NUMBERS⟩).state = ⟨"HEL", [], Mode.NUMBERS⟩ ∧
      (applyPrediction [0, 0, 0, 0, 0, 0, 0, 0, 0, 0, 1]
        ⟨"HEL", [], Mode.NUMBERS⟩).spoken = none ∧
      (applyPrediction [0, 0, 0, 0, 0, 0, 0, 0, 0, 0, 1]
        ⟨"HEL", [], Mode.NUMBERS⟩).errorLogged = true) ∧
    ((applyPrediction [1 / 2, 3 / 4, 1 / 4] ⟨"", [], Mode.ALPHABETS⟩).state.sentence
        = String.push ""
          ((labels_for Mode.ALPHABETS).getD
            (np_argmax [1 / 2, 3 / 4, 1 / 4]) 'A') ∧
      (applyPrediction [1 / 2, 3 / 4, 1 / 4] ⟨"", [], Mode.ALPHABETS⟩).state.strokes
        = ([] : List ((ℤ × ℤ) × (ℤ × ℤ))) ∧
      (applyPrediction [1 / 2, 3 / 4, 1 / 4] ⟨"", [], Mode.ALPHABETS⟩).state.mode
        = Mode.ALPHABETS ∧
      (applyPrediction [1 / 2, 3 / 4, 1 / 4] ⟨"", [], Mode.ALPHABETS⟩).spoken
        = some ((labels_for Mode.ALPHABETS).getD
            (np_argmax [1 / 2, 3 / 4, 1 / 4]) 'A') ∧
      (applyPrediction [1 / 2, 3 / 4, 1 / 4] ⟨"", [], Mode.ALPHABETS⟩).errorLogged
        = false) :=
  ⟨(C8_argmax_guard [0, 0, 0, 0, 0, 0, 0, 0, 0, 0, 1] ⟨"HEL", [], Mode.NUMBERS⟩).1
      (by show ¬ np_argmax [0, 0, 0, 0, 0, 0, 0, 0, 0, 0, 1] < 10
          norm_num [np_argmax, argmaxAux]),
   (C8_argmax_guard [1 / 2, 3 / 4, 1 / 4] ⟨"", [], Mode.ALPHABETS⟩).2
      (by show np_argmax [1 / 2, 3 / 4, 1 / 4] < 26
          norm_num [np_argmax, argmaxAux])⟩

/-! ## Word suggestions (C5)

The UI state read and written by on_space_press, plus the suggestion
slots created in _setup_ui. -/

structure UIState where
  sentence_text : String
  suggestion_buttons : List (String × Bool)

/-- The three suggestion slots created once in _setup_ui (lines
162-166): label "---", state disabled.  Each slot is (text, enabled). -/
def initial_suggestion_buttons : List (String × Bool) :=
  [("---", false), ("---", false), ("---", false)]

/-- on_space_press (air_predict_app.py lines 429-434): append a space to
the sentence text and refresh the sentence bar.  The method body touches
nothing else; in particular no sequence model is invoked and the
suggestion buttons are not modified. -/
def on_space_press (s : UIState) : UIState :=
  { s with sentence_text := s.sentence_text ++ " " }

/-- C5 counterexample: committing a word boundary with the sentence
"HEL" leaves every suggestion slot exactly the disabled "---"
placeholder it was created as; no slot is ever populated from a model,
contradicting the claimed recomputation of the top-3 suggestions. -/
theorem C5_counterexample_no_recompute :
    (on_space_press ⟨"HEL", initial_suggestion_buttons⟩).suggestion_buttons
      = initial_suggestion_buttons ∧
    (on_space_press ⟨"HEL", initial_suggestion_buttons⟩).sentence_text = "HEL " ∧
    ∀ slot ∈ initial_suggestion_buttons, slot.1 = "---" ∧ slot.2 = false :=
  ⟨rfl, rfl, by decide⟩

/-- C5 amended: committing a word boundary (space press) only appends a
space to the sentence buffer; the three suggestion slots are created
once as disabled "---" placeholders and are never recomputed — the code
contains no sequence model, tokenizer, or suggestion update. -/
theorem C5_space_appends_only (s : UIState) :
    (on_space_press s).sentence_text = s.sentence_text ++ " " ∧
    (on_space_press s).suggestion_buttons = s.suggestion_buttons ∧
    ∀ slot ∈ initial_suggestion_buttons, slot.2 = false :=
  ⟨rfl, rfl, by decide⟩

/-! ## The app.py variant (C10)

app.py contains the same AirPredictApp class compiled against a
blocking startup and a different TTS wiring; its _map_coords,
_handle_gestures, _update_button_hovers, _handle_pinch_click,
reset_pinch, _recognize_character and _preprocess_canvas_image bodies
are embedded here from that file (app.py lines 141-242 and around) so
the two variants can be compared extensionally. -/

namespace AppPy

/-- app.py FRAME_PADDING. -/
def FRAME_PADDING : ℚ := 100

/-- app.py SMOOTHING_ALPHA. -/
def SMOOTHING_ALPHA : ℚ := 3 / 10

/-- app.py PINCH_COOLDOWN_MS. -/
def PINCH_COOLDOWN_MS : ℕ := 500

/-- app.py ALPHABET_LABELS. -/
def ALPHABET_LABELS : String := "ABCDEFGHIJKLMNOPQRSTUVWXYZ"

/-- app.py NUMBER_LABELS. -/
def NUMBER_LABELS : String := "0123456789"

/-- Label alphabet selection of app.py _recognize_character. -/
def labels_for : Mode → List Char
  | Mode.ALPHABETS => ALPHABET_LABELS.toList
  | Mode.NUMBERS => NUMBER_LABELS.toList

/-- One axis of app.py _map_coords (lines 141-151). -/
def map_axis (camDim : ℚ) (winDim : ℤ) (x : ℚ) : ℤ :=
  pyInt (np_clip (np_interp x FRAME_PADDING (camDim - FRAME_PADDING) 0 (winDim : ℚ))
    0 (winDim : ℚ))

/-- app.py _map_coords on both axes. -/
def map_coords (camW camH : ℚ) (winW winH : ℤ) (c : ℤ × ℤ) : ℤ × ℤ :=
  (map_axis camW winW (c.1 : ℚ), map_axis camH winH (c.2 : ℚ))

/-- app.py smoothing update (lines 158-159). -/
def smooth_step (m s : ℤ) : ℤ :=
  pyInt (SMOOTHING_ALPHA * (m : ℚ) + (1 - SMOOTHING_ALPHA) * (s : ℚ))

/-- app.py _update_button_hovers hit test (lines 244-263). -/
def hitTestFrom (p : ℤ × ℤ) : ℕ → List Btn → Option ℕ
  | _, [] => none
  | i, b :: bs =>
    if b.enabled = true ∧ b.x1 < p.1 ∧ p.1 < b.x2 ∧ b.y1 < p.2 ∧ p.2 < b.y2 then some i
    else hitTestFrom p (i + 1) bs

def hitTest (bs : List Btn) (p : ℤ × ℤ) : Option ℕ := hitTestFrom p 0 bs

/-- app.py reset_pinch scheduled via window.after (lines 270-274). -/
def fireReset (s : AppState) (t : ℕ) : AppState :=
  match s.resetAt with
  | some r => if r ≤ t then { s with pinchActive := false, resetAt := none } else s
  | none => s

/-- app.py smoothed cursor position for one tick. -/
def smoothPt (env : Env) (s : AppState) (c : ℤ × ℤ) : ℤ × ℤ :=
  (smooth_step (map_coords env.camW env.camH env.winW env.winH c).1 s.smooth.1,
   smooth_step (map_coords env.camW env.camH env.winW env.winH c).2 s.smooth.2)

/-- app.py _handle_gestures (lines 153-175) as one tick. -/
def tick (env : Env) (s : AppState) (inp : TickIn) : AppState :=
  let s0 := fireReset s inp.t
  match inp.cursor with
  | none => s0
  | some c =>
    let sm := smoothPt env s0 c
    let hov := hitTest env.buttons sm
    let cx := sm.1 - env.canvasX
    let cy := sm.2 - env.canvasY
    if inp.gesture = Gesture.DRAW then
      { smooth := sm, last := some (cx, cy), pinchActive := s0.pinchActive,
        resetAt := s0.resetAt, hovered := hov,
        strokes :=
          match s0.last with
          | some lp =>
            if 0 < cx ∧ cx < env.canvasW ∧ 0 < cy ∧ cy < env.canvasH then
              (lp, (cx, cy)) :: s0.strokes
            else s0.strokes
          | none => s0.strokes,
        clicks := s0.clicks, recogs := s0.recogs }
    else
      let recogsN :=
        if inp.gesture = Gesture.MOVE ∧ s0.last ≠ none then inp.t :: s0.recogs
        else s0.recogs
      if inp.gesture = Gesture.PINCH ∧ s0.pinchActive = false ∧ hov ≠ none then
        { smooth := sm, last := none, pinchActive := true,
          resetAt := some (inp.t + PINCH_COOLDOWN_MS), hovered := hov,
          strokes := s0.strokes, clicks := inp.t :: s0.clicks, recogs := recogsN }
      else
        { smooth := sm, last := none, pinchActive := s0.pinchActive,
          resetAt := s0.resetAt, hovered := hov,
          strokes := s0.strokes, clicks := s0.clicks, recogs := recogsN }

/-- app.py crop rectangle: bounding box of contours[0] (line 230). -/
def cropRect (img : Img) : Option (ℕ × ℕ × ℕ × ℕ) :=
  match findContours (invertImg img) with
  | [] => none
  | cont :: _ => some (boundingRect cont)

/-- app.py _preprocess_canvas_image steps 4-10 (lines 226-242). -/
def preprocess_canvas_image (img : Img) : Option QImg :=
  let inv := invertImg img
  match cropRect img with
  | none => none
  | some (x, y, w, h) =>
    let char1 := cropImg inv x y w h
    let side_len := max w h
    let padding_top := (side_len - h) / 2
    let padding_bottom := side_len - h - padding_top
    let padding_left := (side_len - w) / 2
    let padding_right := side_len - w - padding_left
    let char2 := padImg char1 padding_top padding_bottom padding_left padding_right
    let char3 := resizeArea char2 20 20
    let final_img := padImg char3 4 4 4 4
    some ⟨final_img.rows, final_img.cols, fun r c => (final_img.pix r c : ℚ) / 255⟩

/-- app.py prediction application (lines 191-204). -/
def applyPrediction (prediction : List ℚ) (s : RState) : RecogOut :=
  let predicted_index := np_argmax prediction
  let labels := labels_for s.mode
  if predicted_index < labels.length then
    let ch := labels.getD predicted_index 'A'
    ⟨{ s with sentence := s.sentence.push ch }, some ch, false⟩
  else
    ⟨s, none, true⟩

/-- app.py _recognize_character (lines 177-206). -/
def recognize_character (model : QImg → List ℚ) (s : RState) (img : Img) : RecogOut :=
  match preprocess_canvas_image img with
  | none => ⟨{ s with strokes := [] }, none, false⟩
  | some t => applyPrediction (model t) s

end AppPy

theorem appPy_fireReset_eq (s : AppState) (t : ℕ) :
    AppPy.fireReset s t = fireReset s t := by
  cases hr : s.resetAt <;> simp [AppPy.fireReset, fireReset, hr]

theorem appPy_smoothPt_eq (env : Env) (s : AppState) (c : ℤ × ℤ) :
    AppPy.smoothPt env s c = smoothPt env s c := rfl

theorem appPy_hitTestFrom_eq (p : ℤ × ℤ) :
    ∀ (bs : List Btn) (i : ℕ), AppPy.hitTestFrom p i bs = hitTestFrom p i bs := by
  intro bs
  induction bs with
  | nil => intro i; rfl
  | cons b bs ih =>
    intro i
    simp only [AppPy.hitTestFrom, hitTestFrom]
    split_ifs
    · rfl
    · exact ih (i + 1)

theorem appPy_hitTest_eq (bs : List Btn) (p : ℤ × ℤ) :
    AppPy.hitTest bs p = hitTest bs p := appPy_hitTestFrom_eq p bs 0

theorem appPy_cooldown_eq : AppPy.PINCH_COOLDOWN_MS = PINCH_COOLDOWN_MS := rfl

theorem appPy_tick_eq (env : Env) (s : AppState) (i : TickIn) :
    AppPy.tick env s i = tick env s i := by
  unfold AppPy.tick tick
  cases hc : i.cursor with
  | none => simp only [hc, appPy_fireReset_eq]
  | some c =>
    simp only [hc, appPy_fireReset_eq, appPy_smoothPt_eq, appPy_hitTest_eq,
      appPy_cooldown_eq]

theorem appPy_cropRect_eq (img : Img) : AppPy.cropRect img = cropRect img := by
  cases hfc : findContours (invertImg img) <;> simp [AppPy.cropRect, cropRect, hfc]

theorem appPy_preprocess_eq (img : Img) :
    AppPy.preprocess_canvas_image img = preprocess_canvas_image img := by
  unfold AppPy.preprocess_canvas_image preprocess_canvas_image
  rw [appPy_cropRect_eq]

theorem appPy_labels_eq (m : Mode) : AppPy.labels_for m = labels_for m := by
  cases m <;> rfl

theorem appPy_applyPrediction_eq (prediction : List ℚ) (s : RState) :
    AppPy.applyPrediction prediction s = applyPrediction prediction s := by
  unfold AppPy.applyPrediction applyPrediction
  rw [appPy_labels_eq]

theorem appPy_recognize_eq (model : QImg → List ℚ) (s : RState) (img : Img) :
    AppPy.recognize_character model s img = recognize_character model s img := by
  unfold AppPy.recognize_character recognize_character
  rw [appPy_preprocess_eq]
  cases hp : preprocess_canvas_image img with
  | none => simp [hp]
  | some t => simp [hp, appPy_applyPrediction_eq]

/-- C10: the core gesture-to-action pipeline of air_predict_app.py is
extensionally equal to that of app.py: on every input and prior state,
coordinate mapping, cursor smoothing, the draw/recognize/pinch tick, the
glyph preprocessing, and the recognition step compute identical results
and state updates. -/
theorem C10_core_pipelines_agree :
    (∀ (camDim : ℚ) (winDim : ℤ) (x : ℚ),
      AppPy.map_axis camDim winDim x = map_axis camDim winDim x) ∧
    (∀ m s : ℤ, AppPy.smooth_step m s = smooth_step m s) ∧
    (∀ (env : Env) (s : AppState) (i : TickIn), AppPy.tick env s i = tick env s i) ∧
    (∀ img : Img, AppPy.preprocess_canvas_image img = preprocess_canvas_image img) ∧
    (∀ (model : QImg → List ℚ) (s : RState) (img : Img),
      AppPy.recognize_character model s img = recognize_character model s img) :=
  ⟨fun _ _ _ => rfl, fun _ _ => rfl, appPy_tick_eq, appPy_preprocess_eq,
   appPy_recognize_eq⟩

/-- C5 witness for the amended statement at a concrete state and slot. -/
theorem C5_witness :
    (on_space_press ⟨"HI", initial_suggestion_buttons⟩).sentence_text = "HI" ++ " " ∧
    (on_space_press ⟨"HI", initial_suggestion_buttons⟩).suggestion_buttons
      = initial_suggestion_buttons ∧
    (("---", false) : String × Bool).2 = false := by
  obtain ⟨h1, h2, h3⟩ := C5_space_appends_only ⟨"HI", initial_suggestion_buttons⟩
  exact ⟨h1, h2, h3 ("---", false) (by decide)⟩
